import Mathlib

/-!
Shallow embedding of the Ascon-CXOF128 core from `src/software/hash.c` and
`src/software/permutations.h`.

The repository ships `hash.c`, `permutations.h` and `crypto_hash.h`, but not
the support headers (`ascon.h`, `round.h`, `word.h`, `constants.h`, `api.h`).
The state type, the round function, the byte load/store helpers, the padding
helper and the numeric constants they define are therefore modelled from the
specification (each such definition says so in its doc comment).  Machine
integers are `Nat` with explicit `% 2^64` (or per-byte `% 256`) where the C
types would wrap; byte buffers are functions `Nat → Nat` (a C pointer reads
`unsigned char`, hence every read is reduced `% 256`) together with an
explicit length, and output buffers are produced as `List Nat` of bytes.
-/

namespace AsconCXOF

/-- Modelled from the spec: the Ascon state, five 64-bit unsigned lanes
x0..x4 (`ascon_state_t` from the missing `ascon.h`). -/
structure ascon_state_t where
  x0 : Nat
  x1 : Nat
  x2 : Nat
  x3 : Nat
  x4 : Nat
deriving DecidableEq, Repr

/-- Mask of 64 one bits. -/
def MASK64 : Nat := 2 ^ 64 - 1

/-- Modelled from the spec: 64-bit rotate right (`ROR` from the missing
`round.h`). -/
def ROR (x n : Nat) : Nat := (x >>> n) ||| ((x <<< (64 - n)) &&& MASK64)

/-- Bitwise complement on a 64-bit value. -/
def NOT64 (x : Nat) : Nat := x ^^^ MASK64

/-- Modelled from the spec: one Ascon round with 8-bit round constant `C`
(the `ROUND` macro from the missing `round.h`): addition of the constant
into x2, the bitsliced Ascon S-box, then linear diffusion with rotation
pairs (19,28), (61,39), (1,6), (10,17), (7,41). -/
def ROUND (s : ascon_state_t) (C : Nat) : ascon_state_t :=
  let x2a := s.x2 ^^^ C
  let x0a := s.x0 ^^^ s.x4
  let x4a := s.x4 ^^^ s.x3
  let x2b := x2a ^^^ s.x1
  let t0 := x0a ^^^ (NOT64 s.x1 &&& x2b)
  let t1 := s.x1 ^^^ (NOT64 x2b &&& s.x3)
  let t2 := x2b ^^^ (NOT64 s.x3 &&& x4a)
  let t3 := s.x3 ^^^ (NOT64 x4a &&& x0a)
  let t4 := x4a ^^^ (NOT64 x0a &&& s.x1)
  let u1 := t1 ^^^ t0
  let u0 := t0 ^^^ t4
  let u3 := t3 ^^^ t2
  let u2 := NOT64 t2
  { x0 := u0 ^^^ ROR u0 19 ^^^ ROR u0 28
    x1 := u1 ^^^ ROR u1 61 ^^^ ROR u1 39
    x2 := u2 ^^^ ROR u2 1 ^^^ ROR u2 6
    x3 := u3 ^^^ ROR u3 10 ^^^ ROR u3 17
    x4 := t4 ^^^ ROR t4 7 ^^^ ROR t4 41 }

/-- Apply `ROUND` once per constant, in list order. -/
def applyRounds (cs : List Nat) (s : ascon_state_t) : ascon_state_t :=
  List.foldl ROUND s cs

/-- The ordered round-constant sequence of `P12` (permutations.h lines 11-24). -/
def P12_constants : List Nat :=
  [0xf0, 0xe1, 0xd2, 0xc3, 0xb4, 0xa5, 0x96, 0x87, 0x78, 0x69, 0x5a, 0x4b]

/-- `P12` from permutations.h: twelve rounds with constants f0..4b. -/
def P12 (s : ascon_state_t) : ascon_state_t :=
  applyRounds [0xf0, 0xe1, 0xd2, 0xc3, 0xb4, 0xa5, 0x96, 0x87, 0x78, 0x69, 0x5a, 0x4b] s

/-- `P8` from permutations.h: eight rounds with constants b4..4b. -/
def P8 (s : ascon_state_t) : ascon_state_t :=
  applyRounds [0xb4, 0xa5, 0x96, 0x87, 0x78, 0x69, 0x5a, 0x4b] s

/-- `P6` from permutations.h: six rounds with constants 96..4b. -/
def P6 (s : ascon_state_t) : ascon_state_t :=
  applyRounds [0x96, 0x87, 0x78, 0x69, 0x5a, 0x4b] s

/-- `P_rounds` from permutations.h lines 60-73: runtime dispatch on
`pa_rounds` (a C `int`, hence `Int`); `case 6` gives `P6`, `case 8` gives
`P8`, `case 12` and `default` give `P12`. -/
def P_rounds (s : ascon_state_t) (pa_rounds : Int) : ascon_state_t :=
  if pa_rounds = 6 then P6 s
  else if pa_rounds = 8 then P8 s
  else P12 s

/-- Modelled from the spec: the canonical Ascon-CXOF128 initialization
vector (`ASCON_CXOF_IV` from the missing headers). -/
def ASCON_CXOF_IV : Nat := 0x0000080000cc0004

/-- Modelled from the spec: the rate is 8 bytes (`ASCON_HASH_RATE` from the
missing `constants.h`). -/
def ASCON_HASH_RATE : Nat := 8

/-- Modelled from the spec: the canonical digest size is 32 bytes
(`CRYPTO_BYTES` from the missing `api.h`). -/
def CRYPTO_BYTES : Nat := 32

/-- Modelled from the spec: the compile-time default round count is 12
(`ASCON_PA_ROUNDS` from the missing `constants.h`). -/
def ASCON_PA_ROUNDS : Int := 12

/-- Modelled from the spec: `LOADBYTES(p + off, n)` from the missing
`word.h` reads `n` bytes (each an `unsigned char`, hence `% 256`) starting
at offset `off` into the low-addressed bytes of a 64-bit lane,
little-endian in the lane, zero-filling the rest. -/
def LOADBYTES (p : Nat → Nat) (off n : Nat) : Nat :=
  List.foldl (fun acc i => acc ||| ((p (off + i) % 256) <<< (8 * i))) 0 (List.range n)

/-- Modelled from the spec: `STOREBYTES(out, x, n)` from the missing
`word.h` writes the `n` low-addressed bytes of lane `x`, least-significant
byte first. -/
def STOREBYTES (x n : Nat) : List Nat :=
  List.map (fun i => (x >>> (8 * i)) % 256) (List.range n)

/-- Modelled from the spec: `PAD(k)` from the missing `word.h` is a 64-bit
lane with byte 0x80 at byte offset `k` and zeros elsewhere. -/
def PAD (k : Nat) : Nat := 0x80 <<< (8 * k)

/-- The absorb-label-length phase of `crypto_cxof_rounds`
(hash.c lines 35-38): XOR `cslen * 8`, wrapped modulo 2^64 as the C
`unsigned long long` multiplication does, into x0, then permute. -/
def absorb_cslen (cslen : Nat) (pa_rounds : Int) (s : ascon_state_t) : ascon_state_t :=
  P_rounds { s with x0 := s.x0 ^^^ ((cslen * 8) % 2 ^ 64) } pa_rounds

/-- The full-block absorb loop of `crypto_cxof_rounds` (hash.c lines 41-47
and 55-61) WITHOUT the final padded block: while `len ≥ 8`, XOR a full
8-byte block into x0, permute, advance. -/
def absorb_full (p : Nat → Nat) (off len : Nat) (pa_rounds : Int)
    (s : ascon_state_t) : ascon_state_t :=
  if 8 ≤ len then
    absorb_full p (off + 8) (len - 8) pa_rounds
      (P_rounds { s with x0 := s.x0 ^^^ LOADBYTES p off 8 } pa_rounds)
  else s
termination_by len

/-- The absorb phase of `crypto_cxof_rounds` (hash.c lines 41-52 for the
label, 55-66 for the message): full 8-byte blocks, then the final block of
`len % 8` remaining bytes XORed together with the padding lane, each
followed by a permutation. -/
def ascon_absorb (p : Nat → Nat) (off len : Nat) (pa_rounds : Int)
    (s : ascon_state_t) : ascon_state_t :=
  if 8 ≤ len then
    ascon_absorb p (off + 8) (len - 8) pa_rounds
      (P_rounds { s with x0 := s.x0 ^^^ LOADBYTES p off 8 } pa_rounds)
  else
    P_rounds { s with x0 := s.x0 ^^^ LOADBYTES p off len ^^^ PAD len } pa_rounds
termination_by len

/-- The squeeze phase of `crypto_cxof_rounds` (hash.c lines 68-78): while
`outlen > 8`, emit 8 bytes of x0 and permute; finally emit the last
`outlen ≤ 8` bytes with no permutation afterwards. -/
def ascon_squeeze (outlen : Nat) (pa_rounds : Int) (s : ascon_state_t) : List Nat :=
  if 8 < outlen then
    STOREBYTES s.x0 8 ++ ascon_squeeze (outlen - 8) pa_rounds (P_rounds s pa_rounds)
  else
    STOREBYTES s.x0 outlen
termination_by outlen

/-- `crypto_cxof_rounds` from hash.c lines 9-82: initialize with the CXOF
IV, permute, absorb the label length, absorb the label `cs`, absorb the
message `inp`, squeeze `outlen` bytes; returns the C status (always 0)
paired with the bytes written to `out`. -/
def crypto_cxof_rounds (outlen : Nat) (inp : Nat → Nat) (inlen : Nat)
    (cs : Nat → Nat) (cslen : Nat) (pa_rounds : Int) : Int × List Nat :=
  let s0 : ascon_state_t := ⟨ASCON_CXOF_IV, 0, 0, 0, 0⟩
  let s1 := P_rounds s0 pa_rounds
  let s2 := absorb_cslen cslen pa_rounds s1
  let s3 := ascon_absorb cs 0 cslen pa_rounds s2
  let s4 := ascon_absorb inp 0 inlen pa_rounds s3
  (0, ascon_squeeze outlen pa_rounds s4)

/-- `crypto_cxof` from hash.c lines 84-88: `crypto_cxof_rounds` with the
compile-time `ASCON_PA_ROUNDS`. -/
def crypto_cxof (outlen : Nat) (inp : Nat → Nat) (inlen : Nat)
    (cs : Nat → Nat) (cslen : Nat) : Int × List Nat :=
  crypto_cxof_rounds outlen inp inlen cs cslen ASCON_PA_ROUNDS

/-- 32-bit bitwise complement (the C `~` on `unsigned int` in hash.c
line 108). -/
def NOT32 (x : Nat) : Nat := x ^^^ (2 ^ 32 - 1)

/-- `crypto_cxof_bits_rounds` from hash.c lines 90-112: if
`outlen_bits = 0` return success with no output; otherwise run the
byte-level XOF on `ceil(outlen_bits/8)` bytes and, when
`rem = outlen_bits mod 8` is nonzero, mask the last byte with
`0xFF AND NOT((1 << (8-rem)) - 1)`, keeping the top `rem` bits. -/
def crypto_cxof_bits_rounds (outlen_bits : Nat) (inp : Nat → Nat) (inlen : Nat)
    (cs : Nat → Nat) (cslen : Nat) (pa_rounds : Int) : Int × List Nat :=
  if outlen_bits = 0 then (0, [])
  else
    let outlen_bytes := (outlen_bits + 7) / 8
    let r := crypto_cxof_rounds outlen_bytes inp inlen cs cslen pa_rounds
    if r.1 ≠ 0 then r
    else
      let rem := outlen_bits % 8
      if rem ≠ 0 then
        let mask := 0xFF &&& NOT32 ((1 <<< (8 - rem)) - 1)
        (0, r.2.set (outlen_bytes - 1) (r.2.getD (outlen_bytes - 1) 0 &&& mask))
      else
        (0, r.2)

/-- `crypto_cxof_bits` from hash.c lines 114-118. -/
def crypto_cxof_bits (outlen_bits : Nat) (inp : Nat → Nat) (inlen : Nat)
    (cs : Nat → Nat) (cslen : Nat) : Int × List Nat :=
  crypto_cxof_bits_rounds outlen_bits inp inlen cs cslen ASCON_PA_ROUNDS

/-- `crypto_hash` from hash.c lines 120-123: `crypto_cxof` with
`outlen = CRYPTO_BYTES`, a null label pointer (modelled as the constant-0
buffer, which lines 9-82 never read when `cslen = 0`) and `cslen = 0`. -/
def crypto_hash (inp : Nat → Nat) (len : Nat) : Int × List Nat :=
  crypto_cxof CRYPTO_BYTES inp len (fun _ => 0) 0

/-! Unfolding equations for the three loop functions. -/

lemma absorb_step (p : Nat → Nat) (off len : Nat) (pa : Int) (s : ascon_state_t)
    (h : 8 ≤ len) :
    ascon_absorb p off len pa s =
      ascon_absorb p (off + 8) (len - 8) pa
        (P_rounds { s with x0 := s.x0 ^^^ LOADBYTES p off 8 } pa) := by
  rw [ascon_absorb]
  rw [if_pos h]

lemma absorb_last (p : Nat → Nat) (off len : Nat) (pa : Int) (s : ascon_state_t)
    (h : len < 8) :
    ascon_absorb p off len pa s =
      P_rounds { s with x0 := s.x0 ^^^ LOADBYTES p off len ^^^ PAD len } pa := by
  rw [ascon_absorb]
  rw [if_neg (by omega)]

lemma absorb_full_step (p : Nat → Nat) (off len : Nat) (pa : Int) (s : ascon_state_t)
    (h : 8 ≤ len) :
    absorb_full p off len pa s =
      absorb_full p (off + 8) (len - 8) pa
        (P_rounds { s with x0 := s.x0 ^^^ LOADBYTES p off 8 } pa) := by
  rw [absorb_full]
  rw [if_pos h]

lemma absorb_full_last (p : Nat → Nat) (off len : Nat) (pa : Int) (s : ascon_state_t)
    (h : len < 8) :
    absorb_full p off len pa s = s := by
  rw [absorb_full]
  rw [if_neg (by omega)]

lemma squeeze_step (outlen : Nat) (pa : Int) (s : ascon_state_t) (h : 8 < outlen) :
    ascon_squeeze outlen pa s =
      STOREBYTES s.x0 8 ++ ascon_squeeze (outlen - 8) pa (P_rounds s pa) := by
  rw [ascon_squeeze]
  rw [if_pos h]

lemma squeeze_last (outlen : Nat) (pa : Int) (s : ascon_state_t) (h : outlen ≤ 8) :
    ascon_squeeze outlen pa s = STOREBYTES s.x0 outlen := by
  rw [ascon_squeeze]
  rw [if_neg (by omega)]

lemma LOADBYTES_zero (p : Nat → Nat) (off : Nat) : LOADBYTES p off 0 = 0 := rfl

/-- The absorb phase is the full-block loop followed by one unconditional
final padded block: the remaining `len % 8` bytes and the padding lane are
XORed into x0 and a permutation is applied, for every `len`. -/
lemma ascon_absorb_spec (p : Nat → Nat) (pa : Int) :
    ∀ (len off : Nat) (s : ascon_state_t),
      ascon_absorb p off len pa s =
        P_rounds { absorb_full p off len pa s with
          x0 := (absorb_full p off len pa s).x0
            ^^^ LOADBYTES p (off + (len - len % 8)) (len % 8) ^^^ PAD (len % 8) } pa := by
  intro len
  induction len using Nat.strong_induction_on with
  | _ len ih =>
    intro off s
    by_cases h : 8 ≤ len
    · rw [absorb_step p off len pa s h, absorb_full_step p off len pa s h]
      rw [ih (len - 8) (by omega)]
      have h1 : (len - 8) % 8 = len % 8 := by omega
      have h2 : off + 8 + (len - 8 - len % 8) = off + (len - len % 8) := by omega
      rw [h1, h2]
    · rw [absorb_last p off len pa s (by omega), absorb_full_last p off len pa s (by omega)]
      have h1 : len % 8 = len := Nat.mod_eq_of_lt (by omega)
      rw [h1, Nat.sub_self, Nat.add_zero]

/-- With `cslen = 0` the absorb phase never reads the buffer: its result is
the same for every buffer and every offset. -/
lemma absorb_zero_indep (p q : Nat → Nat) (o1 o2 : Nat) (pa : Int) (s : ascon_state_t) :
    ascon_absorb p o1 0 pa s = ascon_absorb q o2 0 pa s := by
  rw [absorb_last p o1 0 pa s (by omega), absorb_last q o2 0 pa s (by omega)]
  rfl

/-- `crypto_cxof_rounds` with `cslen = 0` is independent of the label
buffer. -/
lemma cxof_rounds_zero_label (outlen : Nat) (inp : Nat → Nat) (inlen : Nat)
    (cs1 cs2 : Nat → Nat) (pa : Int) :
    crypto_cxof_rounds outlen inp inlen cs1 0 pa =
      crypto_cxof_rounds outlen inp inlen cs2 0 pa := by
  simp only [crypto_cxof_rounds]
  rw [absorb_zero_indep cs1 cs2 0 0 pa]

lemma STOREBYTES_length (x n : Nat) : (STOREBYTES x n).length = n := by
  simp [STOREBYTES]

lemma STOREBYTES_take (x m n : Nat) (h : m ≤ n) :
    (STOREBYTES x n).take m = STOREBYTES x m := by
  unfold STOREBYTES
  rw [← List.map_take, List.take_range, Nat.min_eq_left h]

lemma ascon_squeeze_length (pa : Int) :
    ∀ (outlen : Nat) (s : ascon_state_t), (ascon_squeeze outlen pa s).length = outlen := by
  intro outlen
  induction outlen using Nat.strong_induction_on with
  | _ outlen ih =>
    intro s
    by_cases h : 8 < outlen
    · rw [squeeze_step outlen pa s h]
      rw [List.length_append, STOREBYTES_length, ih (outlen - 8) (by omega)]
      omega
    · rw [squeeze_last outlen pa s (by omega), STOREBYTES_length]

lemma ascon_squeeze_take (pa : Int) :
    ∀ (o2 o1 : Nat) (s : ascon_state_t), o1 ≤ o2 →
      ascon_squeeze o1 pa s = (ascon_squeeze o2 pa s).take o1 := by
  intro o2
  induction o2 using Nat.strong_induction_on with
  | _ o2 ih =>
    intro o1 s h
    by_cases h2 : 8 < o2
    · rw [squeeze_step o2 pa s h2, List.take_append_eq_append_take, STOREBYTES_length]
      by_cases h1 : 8 < o1
      · rw [squeeze_step o1 pa s h1]
        rw [List.take_of_length_le (by rw [STOREBYTES_length]; omega)]
        rw [ih (o2 - 8) (by omega) (o1 - 8) (P_rounds s pa) (by omega)]
      · rw [squeeze_last o1 pa s (by omega)]
        rw [STOREBYTES_take s.x0 o1 8 (by omega)]
        rw [Nat.sub_eq_zero_of_le (by omega), List.take_zero, List.append_nil]
    · rw [squeeze_last o2 pa s (by omega), squeeze_last o1 pa s (by omega)]
      rw [STOREBYTES_take s.x0 o1 o2 h]

lemma STOREBYTES_mem_lt (x n b : Nat) (hb : b ∈ STOREBYTES x n) : b < 256 := by
  unfold STOREBYTES at hb
  obtain ⟨i, _, rfl⟩ := List.mem_map.mp hb
  exact Nat.mod_lt _ (by norm_num)

lemma ascon_squeeze_mem_lt (pa : Int) :
    ∀ (outlen : Nat) (s : ascon_state_t) (b : Nat),
      b ∈ ascon_squeeze outlen pa s → b < 256 := by
  intro outlen
  induction outlen using Nat.strong_induction_on with
  | _ outlen ih =>
    intro s b hb
    by_cases h : 8 < outlen
    · rw [squeeze_step outlen pa s h] at hb
      rcases List.mem_append.mp hb with hb | hb
      · exact STOREBYTES_mem_lt _ _ _ hb
      · exact ih (outlen - 8) (by omega) (P_rounds s pa) b hb
    · rw [squeeze_last outlen pa s (by omega)] at hb
      exact STOREBYTES_mem_lt _ _ _ hb

/-! Helper lemmas for the bit-granularity wrapper. -/

lemma bits_rounds_eq_set (outlen_bits : Nat) (inp : Nat → Nat) (inlen : Nat)
    (cs : Nat → Nat) (cslen : Nat) (pa : Int)
    (h0 : outlen_bits ≠ 0) (hr : outlen_bits % 8 ≠ 0) :
    crypto_cxof_bits_rounds outlen_bits inp inlen cs cslen pa =
      ((0 : Int), ((crypto_cxof_rounds ((outlen_bits + 7) / 8) inp inlen cs cslen pa).2).set
            ((outlen_bits + 7) / 8 - 1)
            (((crypto_cxof_rounds ((outlen_bits + 7) / 8) inp inlen cs cslen pa).2).getD
                ((outlen_bits + 7) / 8 - 1) 0
              &&& (0xFF &&& NOT32 ((1 <<< (8 - outlen_bits % 8)) - 1)))) := by
  simp only [crypto_cxof_bits_rounds]
  rw [if_neg h0]
  rw [if_neg (fun hh : (crypto_cxof_rounds _ _ _ _ _ _).1 ≠ 0 => hh rfl)]
  rw [if_pos hr]

set_option maxRecDepth 40000 in
lemma byte_mask_eq :
    ∀ x < 256, ∀ r < 8, r ≠ 0 →
      x &&& (0xFF &&& NOT32 ((1 <<< (8 - r)) - 1)) = (x >>> (8 - r)) <<< (8 - r) := by
  decide

lemma shift_low_zero (y k : Nat) : ((y >>> k) <<< k) % 2 ^ k = 0 := by
  rw [Nat.shiftLeft_eq]
  exact Nat.mul_mod_left _ _

lemma cxof_rounds_snd_length (outlen : Nat) (inp : Nat → Nat) (inlen : Nat)
    (cs : Nat → Nat) (cslen : Nat) (pa : Int) :
    (crypto_cxof_rounds outlen inp inlen cs cslen pa).2.length = outlen :=
  ascon_squeeze_length pa outlen _

lemma cxof_rounds_snd_lt (outlen : Nat) (inp : Nat → Nat) (inlen : Nat)
    (cs : Nat → Nat) (cslen : Nat) (pa : Int) (b : Nat)
    (hb : b ∈ (crypto_cxof_rounds outlen inp inlen cs cslen pa).2) : b < 256 :=
  ascon_squeeze_mem_lt pa outlen _ b hb

/-! Claim theorems. -/

/-- C1: In `crypto_cxof_rounds`, for every label and message — including
length 0 and exact multiples of 8 bytes — after the full-block absorb loop
a final block is always absorbed: x0 is XORed with the remaining
`len % 8 < 8` input bytes and with the padding lane holding byte 0x80 at
byte offset `len % 8`, and a permutation `P_rounds` is applied afterwards;
`crypto_cxof_rounds` runs this absorb phase for both the Z phase and the M
phase. -/
theorem final_block_always_absorbed :
    (∀ (p : Nat → Nat) (off len : Nat) (pa : Int) (s : ascon_state_t),
      ascon_absorb p off len pa s =
        P_rounds { absorb_full p off len pa s with
          x0 := (absorb_full p off len pa s).x0
            ^^^ LOADBYTES p (off + (len - len % 8)) (len % 8) ^^^ PAD (len % 8) } pa)
    ∧ (∀ (outlen : Nat) (inp : Nat → Nat) (inlen : Nat) (cs : Nat → Nat)
        (cslen : Nat) (pa : Int),
      crypto_cxof_rounds outlen inp inlen cs cslen pa =
        (0, ascon_squeeze outlen pa
          (ascon_absorb inp 0 inlen pa
            (ascon_absorb cs 0 cslen pa
              (absorb_cslen cslen pa
                (P_rounds ⟨ASCON_CXOF_IV, 0, 0, 0, 0⟩ pa)))))) :=
  ⟨fun p off len pa s => ascon_absorb_spec p pa len off s,
   fun _ _ _ _ _ _ => rfl⟩

/-- C2: `crypto_hash` produces the same status and the same 32 bytes as the
default byte-level XOF `crypto_cxof` with `outlen = CRYPTO_BYTES = 32`, the
same message, an empty customization label (any buffer with `cslen = 0`),
and round count 12 (`crypto_cxof` delegates with `ASCON_PA_ROUNDS = 12`). -/
theorem hash_eq_cxof_default :
    (∀ (inp : Nat → Nat) (len : Nat) (cs : Nat → Nat),
      crypto_hash inp len = crypto_cxof CRYPTO_BYTES inp len cs 0)
    ∧ CRYPTO_BYTES = 32
    ∧ (∀ (outlen : Nat) (inp : Nat → Nat) (inlen : Nat) (cs : Nat → Nat) (cslen : Nat),
      crypto_cxof outlen inp inlen cs cslen =
        crypto_cxof_rounds outlen inp inlen cs cslen 12) :=
  ⟨fun inp len cs =>
    cxof_rounds_zero_label CRYPTO_BYTES inp len (fun _ => 0) cs ASCON_PA_ROUNDS,
   rfl, fun _ _ _ _ _ => rfl⟩

/-- C3: for every message, label and round count, and output lengths
`outlen1 ≤ outlen2`, the `outlen1`-byte output of `crypto_cxof_rounds` is
the first `outlen1` bytes of its `outlen2`-byte output. -/
theorem cxof_output_consistency (outlen1 outlen2 : Nat) (inp : Nat → Nat)
    (inlen : Nat) (cs : Nat → Nat) (cslen : Nat) (pa : Int)
    (h : outlen1 ≤ outlen2) :
    (crypto_cxof_rounds outlen1 inp inlen cs cslen pa).2 =
      ((crypto_cxof_rounds outlen2 inp inlen cs cslen pa).2).take outlen1 :=
  ascon_squeeze_take pa outlen2 outlen1 _ h

theorem cxof_output_consistency_witness :
    (2 : Nat) ≤ 5 ∧
    (crypto_cxof_rounds 2 (fun _ => 0) 0 (fun _ => 0) 0 12).2 =
      ((crypto_cxof_rounds 5 (fun _ => 0) 0 (fun _ => 0) 0 12).2).take 2 :=
  ⟨by decide, cxof_output_consistency 2 5 (fun _ => 0) 0 (fun _ => 0) 0 12 (by decide)⟩

/-- C4: `P8` (resp. `P6`) applies, in order, exactly the last 8 (resp. 6)
round constants of `P12`'s sequence f0 e1 d2 c3 b4 a5 96 87 78 69 5a 4b,
and is not the first 8 (resp. 6) rounds of `P12`. -/
theorem Pn_uses_last_constants :
    (∀ s, P12 s = applyRounds P12_constants s)
    ∧ (∀ s, P8 s = applyRounds (P12_constants.drop 4) s)
    ∧ (∀ s, P6 s = applyRounds (P12_constants.drop 6) s)
    ∧ P8 ≠ applyRounds (P12_constants.take 8)
    ∧ P6 ≠ applyRounds (P12_constants.take 6) := by
  refine ⟨fun s => rfl, fun s => rfl, fun s => rfl, fun h => ?_, fun h => ?_⟩
  · exact absurd (congrFun h ⟨0, 0, 0, 0, 0⟩) (by decide)
  · exact absurd (congrFun h ⟨0, 0, 0, 0, 0⟩) (by decide)

/-- C5: for every state and every integer round count, `P_rounds` selects
`P6` at 6 and `P8` at 8, and gives `P12` for every other count (12
included): unknown counts fall back to `P12`. -/
theorem P_rounds_dispatch :
    (∀ s : ascon_state_t, P_rounds s 6 = P6 s)
    ∧ (∀ s : ascon_state_t, P_rounds s 8 = P8 s)
    ∧ (∀ s : ascon_state_t, P_rounds s 12 = P12 s)
    ∧ (∀ (s : ascon_state_t) (n : Int), n ≠ 6 → n ≠ 8 → P_rounds s n = P12 s) := by
  refine ⟨fun s => rfl, fun s => rfl, fun s => rfl, fun s n h6 h8 => ?_⟩
  simp [P_rounds, h6, h8]

theorem P_rounds_dispatch_witness :
    ((7 : Int) ≠ 6) ∧ ((7 : Int) ≠ 8) ∧
    P_rounds ⟨1, 2, 3, 4, 5⟩ 7 = P12 ⟨1, 2, 3, 4, 5⟩ :=
  ⟨by decide, by decide,
   P_rounds_dispatch.2.2.2 ⟨1, 2, 3, 4, 5⟩ 7 (by decide) (by decide)⟩

/-- C9: in Step 2 of `crypto_cxof_rounds` the value XORed into x0 is
`cslen * 8` reduced modulo 2^64, with no overflow check or rejection of
large labels: adding 2^61 to `cslen` leaves the absorbed lane unchanged,
and for `cslen ≥ 2^61` the product `cslen * 8` wraps. -/
theorem cslen_length_lane_wraps :
    (∀ (cslen : Nat) (pa : Int) (s : ascon_state_t),
      absorb_cslen cslen pa s =
        P_rounds { s with x0 := s.x0 ^^^ ((cslen * 8) % 2 ^ 64) } pa)
    ∧ (∀ (cslen : Nat) (pa : Int) (s : ascon_state_t),
      absorb_cslen (cslen + 2 ^ 61) pa s = absorb_cslen cslen pa s)
    ∧ (∀ cslen : Nat, 2 ^ 61 ≤ cslen → (cslen * 8) % 2 ^ 64 ≠ cslen * 8) := by
  refine ⟨fun _ _ _ => rfl, fun cslen pa s => ?_, fun cslen hc => ?_⟩
  · unfold absorb_cslen
    have h : ((cslen + 2 ^ 61) * 8) % 2 ^ 64 = (cslen * 8) % 2 ^ 64 := by omega
    rw [h]
  · intro heq
    omega

theorem cslen_length_lane_wraps_witness :
    2 ^ 61 ≤ (2 ^ 61 : Nat) ∧ ((2 ^ 61 : Nat) * 8) % 2 ^ 64 ≠ 2 ^ 61 * 8 :=
  ⟨Nat.le_refl _, cslen_length_lane_wraps.2.2 (2 ^ 61) (Nat.le_refl _)⟩

lemma bits_rounds_snd (outlen_bits : Nat) (inp : Nat → Nat) (inlen : Nat)
    (cs : Nat → Nat) (cslen : Nat) (pa : Int)
    (h0 : outlen_bits ≠ 0) (hr : outlen_bits % 8 ≠ 0) :
    (crypto_cxof_bits_rounds outlen_bits inp inlen cs cslen pa).2 =
      ((crypto_cxof_rounds ((outlen_bits + 7) / 8) inp inlen cs cslen pa).2).set
        ((outlen_bits + 7) / 8 - 1)
        (((crypto_cxof_rounds ((outlen_bits + 7) / 8) inp inlen cs cslen pa).2).getD
            ((outlen_bits + 7) / 8 - 1) 0
          &&& (0xFF &&& NOT32 ((1 <<< (8 - outlen_bits % 8)) - 1))) := by
  rw [bits_rounds_eq_set outlen_bits inp inlen cs cslen pa h0 hr]

/-- C6: when `outlen_bits` is not a multiple of 8, `crypto_cxof_bits_rounds`
writes `ceil(outlen_bits/8)` bytes; all bytes before the last equal the
byte-level XOF output unchanged, and the last byte keeps only its top
`outlen_bits % 8` most-significant bits of the byte-level XOF output, with
the low `8 - outlen_bits % 8` bits cleared to zero. -/
theorem bits_mask_discipline (outlen_bits : Nat) (inp : Nat → Nat) (inlen : Nat)
    (cs : Nat → Nat) (cslen : Nat) (pa : Int) (h : outlen_bits % 8 ≠ 0) :
    (crypto_cxof_bits_rounds outlen_bits inp inlen cs cslen pa).2.length =
        (outlen_bits + 7) / 8
    ∧ (∀ i, i + 1 < (outlen_bits + 7) / 8 →
        (crypto_cxof_bits_rounds outlen_bits inp inlen cs cslen pa).2.getD i 0 =
          (crypto_cxof_rounds ((outlen_bits + 7) / 8) inp inlen cs cslen pa).2.getD i 0)
    ∧ (crypto_cxof_bits_rounds outlen_bits inp inlen cs cslen pa).2.getD
          ((outlen_bits + 7) / 8 - 1) 0 =
        ((crypto_cxof_rounds ((outlen_bits + 7) / 8) inp inlen cs cslen pa).2.getD
            ((outlen_bits + 7) / 8 - 1) 0
          >>> (8 - outlen_bits % 8)) <<< (8 - outlen_bits % 8)
    ∧ (crypto_cxof_bits_rounds outlen_bits inp inlen cs cslen pa).2.getD
          ((outlen_bits + 7) / 8 - 1) 0 % 2 ^ (8 - outlen_bits % 8) = 0 := by
  have h0 : outlen_bits ≠ 0 := by omega
  rw [bits_rounds_snd outlen_bits inp inlen cs cslen pa h0 h]
  set n := (outlen_bits + 7) / 8 with hn
  set bs := (crypto_cxof_rounds n inp inlen cs cslen pa).2 with hbs
  have hlen : bs.length = n := cxof_rounds_snd_length n inp inlen cs cslen pa
  have hn1 : n - 1 < bs.length := by rw [hlen]; omega
  have hx : bs.getD (n - 1) 0 < 256 := by
    rw [List.getD_eq_getElem bs 0 hn1]
    exact cxof_rounds_snd_lt n inp inlen cs cslen pa _ (List.getElem_mem hn1)
  have hmask := byte_mask_eq (bs.getD (n - 1) 0) hx (outlen_bits % 8) (by omega) h
  refine ⟨?_, ?_, ?_, ?_⟩
  · rw [List.length_set, hlen]
  · intro i hi
    rw [List.getD_eq_getElem?_getD, List.getElem?_set_ne (show n - 1 ≠ i by omega),
      ← List.getD_eq_getElem?_getD]
  · rw [List.getD_eq_getElem?_getD, List.getElem?_set_eq_of_lt _ hn1,
      Option.getD_some]
    exact hmask
  · rw [List.getD_eq_getElem?_getD, List.getElem?_set_eq_of_lt _ hn1,
      Option.getD_some, hmask]
    exact shift_low_zero _ _

theorem bits_mask_discipline_witness :
    (17 : Nat) % 8 ≠ 0 ∧
    ((crypto_cxof_bits_rounds 17 (fun _ => 0) 0 (fun _ => 0) 0 12).2.length =
        (17 + 7) / 8
      ∧ (∀ i, i + 1 < (17 + 7) / 8 →
          (crypto_cxof_bits_rounds 17 (fun _ => 0) 0 (fun _ => 0) 0 12).2.getD i 0 =
            (crypto_cxof_rounds ((17 + 7) / 8) (fun _ => 0) 0 (fun _ => 0) 0 12).2.getD i 0)
      ∧ (crypto_cxof_bits_rounds 17 (fun _ => 0) 0 (fun _ => 0) 0 12).2.getD
            ((17 + 7) / 8 - 1) 0 =
          ((crypto_cxof_rounds ((17 + 7) / 8) (fun _ => 0) 0 (fun _ => 0) 0 12).2.getD
              ((17 + 7) / 8 - 1) 0 >>> (8 - 17 % 8)) <<< (8 - 17 % 8)
      ∧ (crypto_cxof_bits_rounds 17 (fun _ => 0) 0 (fun _ => 0) 0 12).2.getD
            ((17 + 7) / 8 - 1) 0 % 2 ^ (8 - 17 % 8) = 0) :=
  ⟨by decide, bits_mask_discipline 17 (fun _ => 0) 0 (fun _ => 0) 0 12 (by decide)⟩

/-- C7: for every message, label and round count, and every `outlen_bits`
that is a nonzero multiple of 8, `crypto_cxof_bits_rounds` produces exactly
the result of `crypto_cxof_rounds` with `outlen = outlen_bits / 8`. -/
theorem bits_byte_agreement (outlen_bits : Nat) (inp : Nat → Nat) (inlen : Nat)
    (cs : Nat → Nat) (cslen : Nat) (pa : Int)
    (h8 : outlen_bits % 8 = 0) (h0 : outlen_bits ≠ 0) :
    crypto_cxof_bits_rounds outlen_bits inp inlen cs cslen pa =
      crypto_cxof_rounds (outlen_bits / 8) inp inlen cs cslen pa := by
  simp only [crypto_cxof_bits_rounds]
  rw [if_neg h0]
  rw [if_neg (fun hh : (crypto_cxof_rounds _ _ _ _ _ _).1 ≠ 0 => hh rfl)]
  rw [if_neg (show ¬outlen_bits % 8 ≠ 0 by omega)]
  have hq : (outlen_bits + 7) / 8 = outlen_bits / 8 := by omega
  rw [hq]
  rfl

theorem bits_byte_agreement_witness :
    (16 : Nat) % 8 = 0 ∧ (16 : Nat) ≠ 0 ∧
    crypto_cxof_bits_rounds 16 (fun _ => 0) 0 (fun _ => 0) 0 12 =
      crypto_cxof_rounds (16 / 8) (fun _ => 0) 0 (fun _ => 0) 0 12 :=
  ⟨by decide, by decide,
   bits_byte_agreement 16 (fun _ => 0) 0 (fun _ => 0) 0 12 (by decide) (by decide)⟩

lemma bits_rounds_fst (ob : Nat) (inp : Nat → Nat) (inlen : Nat)
    (cs : Nat → Nat) (cslen : Nat) (pa : Int) :
    (crypto_cxof_bits_rounds ob inp inlen cs cslen pa).1 = 0 := by
  simp only [crypto_cxof_bits_rounds]
  split
  · rfl
  · rw [if_neg (fun hh : (crypto_cxof_rounds _ _ _ _ _ _).1 ≠ 0 => hh rfl)]
    split
    · rfl
    · rfl

/-- C8: all four operations return status 0 on every input, and
`crypto_cxof_bits_rounds` with `outlen_bits = 0` returns success
immediately, writing no bytes. -/
theorem all_operations_return_zero :
    (∀ (outlen : Nat) (inp : Nat → Nat) (inlen : Nat) (cs : Nat → Nat)
      (cslen : Nat) (pa : Int),
      (crypto_cxof_rounds outlen inp inlen cs cslen pa).1 = 0)
    ∧ (∀ (outlen : Nat) (inp : Nat → Nat) (inlen : Nat) (cs : Nat → Nat)
        (cslen : Nat),
      (crypto_cxof outlen inp inlen cs cslen).1 = 0)
    ∧ (∀ (ob : Nat) (inp : Nat → Nat) (inlen : Nat) (cs : Nat → Nat)
        (cslen : Nat) (pa : Int),
      (crypto_cxof_bits_rounds ob inp inlen cs cslen pa).1 = 0)
    ∧ (∀ (ob : Nat) (inp : Nat → Nat) (inlen : Nat) (cs : Nat → Nat)
        (cslen : Nat),
      (crypto_cxof_bits ob inp inlen cs cslen).1 = 0)
    ∧ (∀ (inp : Nat → Nat) (len : Nat), (crypto_hash inp len).1 = 0)
    ∧ (∀ (inp : Nat → Nat) (inlen : Nat) (cs : Nat → Nat) (cslen : Nat)
        (pa : Int),
      crypto_cxof_bits_rounds 0 inp inlen cs cslen pa = ((0 : Int), ([] : List Nat))) :=
  ⟨fun _ _ _ _ _ _ => rfl, fun _ _ _ _ _ => rfl,
   fun ob inp inlen cs cslen pa => bits_rounds_fst ob inp inlen cs cslen pa,
   fun ob inp inlen cs cslen => bits_rounds_fst ob inp inlen cs cslen ASCON_PA_ROUNDS,
   fun _ _ => rfl, fun _ _ _ _ _ => rfl⟩

/-- C10: with `cslen = 0`, `crypto_cxof_rounds` never reads the label
buffer — its result is the same for every label buffer — so the null label
pointer `crypto_hash` passes is safe and gives the same output as an empty
label. -/
theorem null_label_safe :
    (∀ (outlen : Nat) (inp : Nat → Nat) (inlen : Nat) (cs1 cs2 : Nat → Nat)
      (pa : Int),
      crypto_cxof_rounds outlen inp inlen cs1 0 pa =
        crypto_cxof_rounds outlen inp inlen cs2 0 pa)
    ∧ (∀ (inp : Nat → Nat) (len : Nat) (cs : Nat → Nat),
      crypto_hash inp len =
        crypto_cxof_rounds CRYPTO_BYTES inp len cs 0 ASCON_PA_ROUNDS) :=
  ⟨fun o i il c1 c2 pa => cxof_rounds_zero_label o i il c1 c2 pa,
   fun inp len cs =>
    cxof_rounds_zero_label CRYPTO_BYTES inp len (fun _ => 0) cs ASCON_PA_ROUNDS⟩

end AsconCXOF
